import Mathlib

/-!
Verification of the rust-colog formatting layer.

Text is modelled as `List Char`; machine strings are finite character
sequences, so this embedding is faithful and keeps everything executable.
The crate consists of `src/lib.rs` (builder glue and the `formatter`
binding) plus a `format` module declared by `pub mod format;`.
-/

namespace Colog

/-- The five severity levels of the `log` crate. -/
inductive Level where
  | Error | Warn | Info | Debug | Trace
deriving DecidableEq, Repr

/-- Display colors used by the default style. -/
inductive Color where
  | red | yellow | green | blue | cyan
deriving DecidableEq, Repr

/-- A log record as consumed by the formatter: severity, target and a
message that may contain embedded newline characters. -/
structure Record where
  level : Level
  target : List Char
  message : List Char
deriving DecidableEq, Repr

/-- Modelled from the spec: the `format` module is declared by
`pub mod format;` in `src/lib.rs` but its source file is absent, so the
Style Policy is taken from the spec's contract. A policy exposes
`color_for`, `token_for`, the composed `prefToken`, and
`line_separator`. -/
structure CologStyle where
  color_for : Level → Color
  token_for : Level → List Char
  prefToken : Record → List Char
  line_separator : List Char

/-- ANSI color escape sequence for a color (in-band escape convention). -/
def ansiCode : Color → List Char
  | .red => ['\x1b', '[', '3', '1', 'm']
  | .yellow => ['\x1b', '[', '3', '3', 'm']
  | .green => ['\x1b', '[', '3', '2', 'm']
  | .blue => ['\x1b', '[', '3', '4', 'm']
  | .cyan => ['\x1b', '[', '3', '6', 'm']

/-- ANSI reset sequence. -/
def ansiReset : List Char := ['\x1b', '[', '0', 'm']

/-- Wrap a string in the color escape and the reset sequence. -/
def colorize (c : Color) (s : List Char) : List Char :=
  ansiCode c ++ s ++ ansiReset

/-- Modelled from the spec: the default `color_for` mapping
Error→Red, Warn→Yellow, Info→Green, Debug→Blue, Trace→Cyan. -/
def defaultColorFor : Level → Color
  | .Error => .red
  | .Warn => .yellow
  | .Info => .green
  | .Debug => .blue
  | .Trace => .cyan

/-- Modelled from the spec: the default `token_for`, a fixed-width label
derived from the level name, so all tokens occupy equal visual width. -/
def defaultTokenFor : Level → List Char
  | .Error => ['E', 'R', 'R', 'O', 'R']
  | .Warn => ['W', 'A', 'R', 'N', ' ']
  | .Info => ['I', 'N', 'F', 'O', ' ']
  | .Debug => ['D', 'E', 'B', 'U', 'G']
  | .Trace => ['T', 'R', 'A', 'C', 'E']

/-- The uncolored prefix text for a token function: the bracketing
punctuation around the bare token, without color escapes. -/
def plainPref (token_for : Level → List Char) (l : Level) : List Char :=
  '[' :: (token_for l ++ [']', ' '])

/-- Modelled from the spec: the default `prefToken` composes
`color_for` and `token_for` into the literal prefix, applying the color
escape/reset around the token only. -/
def defaultPrefToken (color_for : Level → Color)
    (token_for : Level → List Char) (rec : Record) : List Char :=
  '[' :: (colorize (color_for rec.level) (token_for rec.level) ++ [']', ' '])

/-- Modelled from the spec: the default `line_separator` is a newline
plus an indent of spaces whose length is computed from `token_for`'s
output width (via the uncolored prefix width), not hardcoded. -/
def defaultLineSeparator (token_for : Level → List Char) : List Char :=
  '\n' :: List.replicate (plainPref token_for Level.Info).length ' '

/-- Build a Style Policy from `color_for` and `token_for`, filling
`prefToken` and `line_separator` with their default derivations. -/
def mkStyle (color_for : Level → Color) (token_for : Level → List Char) :
    CologStyle :=
  { color_for := color_for
    token_for := token_for
    prefToken := defaultPrefToken color_for token_for
    line_separator := defaultLineSeparator token_for }

/-- The default colog style, `DefaultCologStyle` in the crate. -/
def DefaultCologStyle : CologStyle := mkStyle defaultColorFor defaultTokenFor

/-- Split a character sequence on newline characters; the result has at
least one element even when no newline is present. -/
def splitNl : List Char → List (List Char)
  | [] => [[]]
  | c :: rest =>
    match splitNl rest with
    | [] => [[]]
    | l :: ls => if c = '\n' then [] :: l :: ls else (c :: l) :: ls

/-- The ordered write pieces of one `format` call: prefix, first
message-line, then separator/line pairs, then the line terminator. -/
def pieces (fmt : CologStyle) (rec : Record) : List (List Char) :=
  match splitNl rec.message with
  | [] => [fmt.prefToken rec, ['\n']]
  | l :: ls =>
    fmt.prefToken rec :: l ::
      (ls.flatMap (fun m => [fmt.line_separator, m]) ++ [['\n']])

/-- Modelled from the spec: `CologStyle.format`'s output bytes — the
prefix, the newline-split message-lines joined by `line_separator`, and
one trailing line terminator. -/
def CologStyle.format (fmt : CologStyle) (rec : Record) : List Char :=
  (pieces fmt rec).flatten

/-- A write error of the underlying writer (`std::io::Error`). -/
inductive WriteError where
  | writeError
deriving DecidableEq, Repr

/-- The output writer: the bytes written so far, and an externally
injected fault that makes the n-th upcoming write call fail. -/
structure Writer where
  written : List Char
  failsAfter : Option Nat
deriving DecidableEq, Repr

/-- One write call: on failure the buffer is unchanged and the error is
reported; on success the bytes are appended. -/
def write1 (w : Writer) (s : List Char) : Writer × Option WriteError :=
  match w.failsAfter with
  | some 0 => (w, some .writeError)
  | some (n + 1) => ({ written := w.written ++ s, failsAfter := some n }, none)
  | none => ({ written := w.written ++ s, failsAfter := none }, none)

/-- Perform a sequence of write calls, stopping at the first failure
without retrying and without rolling back earlier writes. -/
def writeAll (w : Writer) : List (List Char) → Writer × Option WriteError
  | [] => (w, none)
  | s :: ss =>
    match write1 w s with
    | (w', none) => writeAll w' ss
    | (w', some e) => (w', some e)

/-- Modelled from the spec: `CologStyle.format` against a writer — the
pieces are written in order; a failing write surfaces immediately. -/
def CologStyle.formatWrite (fmt : CologStyle) (w : Writer) (rec : Record) :
    Writer × Option WriteError :=
  writeAll w (pieces fmt rec)

/-- `colog::formatter`: the move closure delegating to
`CologStyle.format` on the captured style (src/lib.rs lines 150-154). -/
def formatter (fmt : CologStyle) : Writer → Record → Writer × Option WriteError :=
  fun buf rec => fmt.formatWrite buf rec

/-- `log::LevelFilter`. -/
inductive LevelFilter where
  | Off | ErrorF | WarnF | InfoF | DebugF | TraceF
deriving DecidableEq, Repr

/-- `env_logger::Builder`, as far as this crate configures it: the
installed formatter, the severity filters set, and the raw filter
strings handed to the facade's parser. -/
structure Builder where
  fmtFn : Option (Writer → Record → Writer × Option WriteError)
  filters : List (Option (List Char) × LevelFilter)
  parsedFilters : List (List Char)

/-- `env_logger::Builder::new()`. -/
def Builder.new : Builder := { fmtFn := none, filters := [], parsedFilters := [] }

/-- `Builder::format`: install a formatter callable. -/
def Builder.formatWith (b : Builder)
    (f : Writer → Record → Writer × Option WriteError) : Builder :=
  { b with fmtFn := some f }

/-- `Builder::filter`: add a severity filter. -/
def Builder.filter (b : Builder) (m : Option (List Char)) (lv : LevelFilter) :
    Builder :=
  { b with filters := b.filters ++ [(m, lv)] }

/-- `Builder::parse_filters`: the facade's parser is external; the model
records the raw string passed through unmodified. -/
def Builder.parseFilters (b : Builder) (s : List Char) : Builder :=
  { b with parsedFilters := b.parsedFilters ++ [s] }

/-- `colog::basic_builder` (src/lib.rs lines 78-82): a fresh builder
with colog default formatting installed; it performs no `env::var` call,
so the ambient `RUST_LOG` value is ignored. -/
def basic_builder (_rustLog : Option (List Char)) : Builder :=
  Builder.new.formatWith (formatter DefaultCologStyle)

/-- `colog::default_builder` (src/lib.rs lines 98-105): basic builder,
default filter `Info`, and `RUST_LOG` passed raw to the parser when
present. -/
def default_builder (rustLog : Option (List Char)) : Builder :=
  let b := (basic_builder rustLog).filter none .InfoF
  match rustLog with
  | some s => b.parseFilters s
  | none => b

/-- `colog::builder` (src/lib.rs lines 110-112), the deprecated name:
delegates to `default_builder`. -/
def builder (rustLog : Option (List Char)) : Builder :=
  default_builder rustLog

/-- `colog::init` (src/lib.rs lines 120-122): the builder it constructs
and initializes (the `init` side effect on the global facade is
external). -/
def init (rustLog : Option (List Char)) : Builder :=
  default_builder rustLog


/-! ### Basic facts about the line split -/

/-- Splitting never yields an empty list of message-lines. -/
theorem splitNl_ne_nil (s : List Char) : splitNl s ≠ [] := by
  cases s with
  | nil => simp [splitNl]
  | cons c rest =>
    simp only [splitNl]
    cases h : splitNl rest with
    | nil => simp
    | cons l ls =>
      by_cases hc : c = '\n' <;> simp [hc]

/-- Prepending a newline-free chunk extends the first message-line. -/
theorem splitNl_append (l s : List Char) (h : '\n' ∉ l) (hd : List Char)
    (tl : List (List Char)) (hs : splitNl s = hd :: tl) :
    splitNl (l ++ s) = (l ++ hd) :: tl := by
  induction l with
  | nil => simpa using hs
  | cons c cs ih =>
    have hc : c ≠ '\n' := by
      intro hc; exact h (by simp [hc])
    have ih' := ih (by intro hm; exact h (List.mem_cons_of_mem _ hm))
    simp only [List.cons_append, splitNl, List.append_eq, ih', hc, if_false]

/-- Splitting a single newline-free chunk gives that chunk alone. -/
theorem splitNl_no_nl (l : List Char) (h : '\n' ∉ l) : splitNl l = [l] := by
  have := splitNl_append l [] h [] [] (by simp [splitNl])
  simpa using this

/-- A leading newline contributes an empty first message-line. -/
theorem splitNl_cons_nl (s : List Char) : splitNl ('\n' :: s) = [] :: splitNl s := by
  simp only [splitNl]
  cases h : splitNl s with
  | nil => exact absurd h (splitNl_ne_nil s)
  | cons l ls => simp

/-- Splitting the newline-joined message-lines recovers them, when no
message-line contains a newline itself. -/
theorem splitNl_intercalate (lines : List (List Char)) (h0 : lines ≠ [])
    (h1 : ∀ m ∈ lines, '\n' ∉ m) :
    splitNl (List.intercalate ['\n'] lines) = lines := by
  induction lines with
  | nil => exact absurd rfl h0
  | cons m ms ih =>
    cases ms with
    | nil =>
      simp only [List.intercalate, List.intersperse, List.flatten]
      have hm : '\n' ∉ m := h1 m (by simp)
      simpa using splitNl_no_nl m hm
    | cons m' ms' =>
      have hrec : splitNl (List.intercalate ['\n'] (m' :: ms')) = m' :: ms' :=
        ih (by simp) (by intro x hx; exact h1 x (List.mem_cons_of_mem _ hx))
      have hstep : List.intercalate ['\n'] (m :: m' :: ms') =
          m ++ '\n' :: List.intercalate ['\n'] (m' :: ms') := by
        simp [List.intercalate, List.intersperse]
      rw [hstep]
      have hm : '\n' ∉ m := h1 m (by simp)
      have : splitNl ('\n' :: List.intercalate ['\n'] (m' :: ms')) =
          [] :: m' :: ms' := by
        rw [splitNl_cons_nl, hrec]
      simpa using splitNl_append m _ hm [] (m' :: ms') this

/-- A trailing newline appends one extra empty message-line. -/
theorem splitNl_append_nl (m : List Char) :
    splitNl (m ++ ['\n']) = splitNl m ++ [[]] := by
  induction m with
  | nil => simp [splitNl]
  | cons c cs ih =>
    simp only [List.cons_append, splitNl, List.append_eq, ih]
    cases h : splitNl cs with
    | nil => exact absurd h (splitNl_ne_nil cs)
    | cons l ls =>
      by_cases hc : c = '\n' <;> simp [hc, h]

/-- Flattening the separator/line pairs of the continuation lines. -/
theorem flatten_sep_pairs (sep : List Char) (ls : List (List Char)) :
    (ls.flatMap (fun m => [sep, m])).flatten = ls.flatMap (fun m => sep ++ m) := by
  induction ls with
  | nil => simp
  | cons l t ih => simp [ih]

/-- `format` output, expressed over the split message-lines. -/
theorem format_flatten (fmt : CologStyle) (rec : Record) (hd : List Char)
    (tl : List (List Char)) (h : splitNl rec.message = hd :: tl) :
    fmt.format rec =
      fmt.prefToken rec ++ hd ++
        tl.flatMap (fun m => fmt.line_separator ++ m) ++ ['\n'] := by
  simp only [CologStyle.format, pieces, h, List.flatten_cons, List.flatten_append,
    flatten_sep_pairs]
  simp [List.append_assoc]

/-! ### Visible width: stripping ANSI escape sequences -/

mutual

/-- Remove in-band ANSI escape sequences, keeping only visible text. -/
def stripAnsi : List Char → List Char
  | [] => []
  | c :: rest => if c = '\x1b' then skipEsc rest else c :: stripAnsi rest

/-- Skip the remainder of an escape sequence, up to the final `m`. -/
def skipEsc : List Char → List Char
  | [] => []
  | c :: rest => if c = 'm' then stripAnsi rest else skipEsc rest

end

/-- Escape-free text passes through `stripAnsi` unchanged (prepended). -/
theorem stripAnsi_append (s t : List Char) (h : '\x1b' ∉ s) :
    stripAnsi (s ++ t) = s ++ stripAnsi t := by
  induction s with
  | nil => simp
  | cons c cs ih =>
    have hc : c ≠ '\x1b' := by
      intro hc; exact h (by simp [hc])
    have ih' := ih (by intro hm; exact h (List.mem_cons_of_mem _ hm))
    simp only [List.cons_append, stripAnsi, List.append_eq, hc, if_false, ih']

/-- A color escape sequence is invisible. -/
theorem stripAnsi_ansiCode (c : Color) (s : List Char) :
    stripAnsi (ansiCode c ++ s) = stripAnsi s := by
  cases c <;> simp [ansiCode, stripAnsi, skipEsc]

/-- The reset sequence is invisible. -/
theorem stripAnsi_ansiReset (s : List Char) :
    stripAnsi (ansiReset ++ s) = stripAnsi s := by
  simp [ansiReset, stripAnsi, skipEsc]

/-- The visible text of the default rendered prefix is exactly the
uncolored prefix text: bracket, bare token, bracket, space. -/
theorem stripAnsi_defaultPrefToken (color_for : Level → Color)
    (token_for : Level → List Char) (rec : Record)
    (h : '\x1b' ∉ token_for rec.level) :
    stripAnsi (defaultPrefToken color_for token_for rec) =
      plainPref token_for rec.level := by
  simp only [defaultPrefToken, colorize, plainPref]
  show stripAnsi ('[' :: (ansiCode (color_for rec.level) ++ token_for rec.level ++
      ansiReset ++ [']', ' '])) = _
  have hbr : ('[' : Char) ≠ '\x1b' := by decide
  simp only [stripAnsi, hbr, if_false]
  rw [List.append_assoc, List.append_assoc, stripAnsi_ansiCode,
    stripAnsi_append _ _ h, stripAnsi_ansiReset]
  simp [stripAnsi, skipEsc]

/-- Joining message-lines with a newline has one newline per joint. -/
theorem count_nl_intercalate (lines : List (List Char)) (h0 : lines ≠ [])
    (h1 : ∀ m ∈ lines, '\n' ∉ m) :
    (List.intercalate ['\n'] lines).count '\n' + 1 = lines.length := by
  induction lines with
  | nil => exact absurd rfl h0
  | cons m ms ih =>
    cases ms with
    | nil =>
      have hm : '\n' ∉ m := h1 m (by simp)
      simp [List.intercalate, List.intersperse, List.count_eq_zero.mpr hm]
    | cons m' ms' =>
      have hstep : List.intercalate ['\n'] (m :: m' :: ms') =
          m ++ '\n' :: List.intercalate ['\n'] (m' :: ms') := by
        simp [List.intercalate, List.intersperse]
      have hm : '\n' ∉ m := h1 m (by simp)
      have ih' := ih (by simp)
        (by intro x hx; exact h1 x (List.mem_cons_of_mem _ hx))
      have hjoint : (m ++ '\n' :: List.intercalate ['\n'] (m' :: ms')).count '\n'
          = (List.intercalate ['\n'] (m' :: ms')).count '\n' + 1 := by
        rw [List.count_append, List.count_cons_self, List.count_eq_zero.mpr hm]
        omega
      rw [hstep, hjoint, List.length_cons]
      omega

/-- C1: for every style policy and every record whose message is the
newline-join of N+1 message-lines (none containing a newline — message
has N embedded newlines), `format` writes the prefix, the first
message-line, then `line_separator()` followed by each subsequent
message-line with no trailing separator, then exactly one line
terminator; in particular a single-line message yields
prefix ++ message ++ terminator with no separator. -/
theorem colog_format_multiline_structure (fmt : CologStyle) (rec : Record)
    (lines : List (List Char)) (h0 : lines ≠ [])
    (h1 : ∀ m ∈ lines, '\n' ∉ m)
    (h2 : rec.message = List.intercalate ['\n'] lines) :
    fmt.format rec =
      fmt.prefToken rec ++ lines.headD [] ++
        lines.tail.flatMap (fun m => fmt.line_separator ++ m) ++ ['\n'] ∧
    rec.message.count '\n' + 1 = lines.length := by
  have hs : splitNl rec.message = lines := by
    rw [h2]; exact splitNl_intercalate lines h0 h1
  constructor
  · cases lines with
    | nil => exact absurd rfl h0
    | cons hd tl =>
      have := format_flatten fmt rec hd tl hs
      simpa using this
  · rw [h2]; exact count_nl_intercalate lines h0 h1

/-- Witness for C1 at the record `Info "a\nb"`. -/
theorem colog_format_multiline_structure_witness :
    (CologStyle.format DefaultCologStyle
        { level := Level.Info, target := [], message := ['a', '\n', 'b'] } =
      CologStyle.prefToken DefaultCologStyle
          { level := Level.Info, target := [], message := ['a', '\n', 'b'] } ++
        ([['a'], ['b']] : List (List Char)).headD [] ++
        ([['a'], ['b']] : List (List Char)).tail.flatMap
          (fun m => CologStyle.line_separator DefaultCologStyle ++ m) ++
        ['\n']) ∧
    (['a', '\n', 'b'] : List Char).count '\n' + 1 =
      ([['a'], ['b']] : List (List Char)).length :=
  colog_format_multiline_structure DefaultCologStyle
    { level := Level.Info, target := [], message := ['a', '\n', 'b'] }
    [['a'], ['b']] (by decide) (by decide) (by decide)
/-- C2: for any token function of uniform visible width W (tokens free
of escape characters), the default `line_separator` is a newline plus an
all-spaces indent whose length equals the visible (ANSI-stripped) width
of the full rendered prefix — derived from `token_for`, not hardcoded —
and that visible width is W plus the bracketing punctuation. -/
theorem colog_default_separator_alignment (color_for : Level → Color)
    (token_for : Level → List Char) (W : Nat)
    (hW : ∀ l, (token_for l).length = W)
    (hEsc : ∀ l, '\x1b' ∉ token_for l) (rec : Record) :
    defaultLineSeparator token_for =
      '\n' :: List.replicate
        (stripAnsi (defaultPrefToken color_for token_for rec)).length ' ' ∧
    (stripAnsi (defaultPrefToken color_for token_for rec)).length = W + 3 := by
  have hstrip := stripAnsi_defaultPrefToken color_for token_for rec (hEsc rec.level)
  have hlen : ∀ l, (plainPref token_for l).length = W + 3 := by
    intro l
    simp [plainPref, hW l]
  refine ⟨?_, by rw [hstrip, hlen]⟩
  rw [hstrip, hlen rec.level]
  simp [defaultLineSeparator, hlen Level.Info]

/-- Witness for C2 with a custom two-character token. -/
theorem colog_default_separator_alignment_witness :
    (defaultLineSeparator (fun _ => ['*', '*']) =
      '\n' :: List.replicate
        (stripAnsi (defaultPrefToken defaultColorFor (fun _ => ['*', '*'])
          { level := Level.Debug, target := [], message := [] })).length ' ') ∧
    (stripAnsi (defaultPrefToken defaultColorFor (fun _ => ['*', '*'])
      { level := Level.Debug, target := [], message := [] })).length = 2 + 3 :=
  colog_default_separator_alignment defaultColorFor (fun _ => ['*', '*']) 2
    (fun _ => rfl)
    (fun _ => (by decide : ('\x1b' : Char) ∉ (['*', '*'] : List Char)))
    { level := Level.Debug, target := [], message := [] }

/-- C3: the default style's `color_for` realizes exactly the mapping
Error→Red, Warn→Yellow, Info→Green, Debug→Blue, Trace→Cyan, the five
colors are pairwise distinct, and its `token_for` is non-empty with the
same visible width (5) on all five levels. -/
theorem colog_default_palette_and_tokens :
    (DefaultCologStyle.color_for .Error = .red ∧
     DefaultCologStyle.color_for .Warn = .yellow ∧
     DefaultCologStyle.color_for .Info = .green ∧
     DefaultCologStyle.color_for .Debug = .blue ∧
     DefaultCologStyle.color_for .Trace = .cyan) ∧
    ([Level.Error, .Warn, .Info, .Debug, .Trace].map
      DefaultCologStyle.color_for).Pairwise (· ≠ ·) ∧
    (DefaultCologStyle.token_for .Error ≠ [] ∧
     DefaultCologStyle.token_for .Warn ≠ [] ∧
     DefaultCologStyle.token_for .Info ≠ [] ∧
     DefaultCologStyle.token_for .Debug ≠ [] ∧
     DefaultCologStyle.token_for .Trace ≠ []) ∧
    ((DefaultCologStyle.token_for .Error).length = 5 ∧
     (DefaultCologStyle.token_for .Warn).length = 5 ∧
     (DefaultCologStyle.token_for .Info).length = 5 ∧
     (DefaultCologStyle.token_for .Debug).length = 5 ∧
     (DefaultCologStyle.token_for .Trace).length = 5) := by
  decide

/-- C4: under the default policy a trailing newline in the message adds
exactly one extra empty continuation line, so the output ends with
`line_separator()` followed immediately by the terminator; an empty
message yields the prefix followed immediately by the terminator. -/
theorem colog_default_trailing_newline_empty (rec : Record) (m : List Char) :
    (rec.message = m ++ ['\n'] →
      DefaultCologStyle.format rec =
        DefaultCologStyle.prefToken rec ++ (splitNl m).headD [] ++
          (splitNl m).tail.flatMap
            (fun l => DefaultCologStyle.line_separator ++ l) ++
          DefaultCologStyle.line_separator ++ ['\n']) ∧
    (rec.message = [] →
      DefaultCologStyle.format rec = DefaultCologStyle.prefToken rec ++ ['\n']) := by
  constructor
  · intro h
    cases hsm : splitNl m with
    | nil => exact absurd hsm (splitNl_ne_nil m)
    | cons hd tl =>
      have hs : splitNl rec.message = hd :: (tl ++ [[]]) := by
        rw [h, splitNl_append_nl, hsm]
        simp
      have hf := format_flatten DefaultCologStyle rec hd (tl ++ [[]]) hs
      rw [hf]
      simp [List.flatMap_append, List.append_assoc]
  · intro h
    have hs : splitNl rec.message = [[]] := by rw [h]; rfl
    have hf := format_flatten DefaultCologStyle rec [] [] hs
    simpa using hf

/-- Witness for C4 at the records `Info "hi\n"` and `Warn ""`. -/
theorem colog_default_trailing_newline_empty_witness :
    (CologStyle.format DefaultCologStyle
        { level := Level.Info, target := [], message := ['h', 'i', '\n'] } =
      CologStyle.prefToken DefaultCologStyle
          { level := Level.Info, target := [], message := ['h', 'i', '\n'] } ++
        (splitNl ['h', 'i']).headD [] ++
        (splitNl ['h', 'i']).tail.flatMap
          (fun l => CologStyle.line_separator DefaultCologStyle ++ l) ++
        CologStyle.line_separator DefaultCologStyle ++ ['\n']) ∧
    (CologStyle.format DefaultCologStyle
        { level := Level.Warn, target := [], message := [] } =
      CologStyle.prefToken DefaultCologStyle
          { level := Level.Warn, target := [], message := [] } ++ ['\n']) :=
  ⟨(colog_default_trailing_newline_empty
      { level := Level.Info, target := [], message := ['h', 'i', '\n'] }
      ['h', 'i']).1 rfl,
   (colog_default_trailing_newline_empty
      { level := Level.Warn, target := [], message := [] } []).2 rfl⟩
/-- A fault-free writer performs every write and appends all bytes. -/
theorem writeAll_ok (ps : List (List Char)) (w : Writer)
    (h : w.failsAfter = none) :
    writeAll w ps =
      ({ written := w.written ++ ps.flatten, failsAfter := none }, none) := by
  induction ps generalizing w with
  | nil =>
    cases w with
    | mk written fa => simp_all [writeAll]
  | cons s ss ih =>
    simp only [writeAll, write1, h]
    rw [ih { written := w.written ++ s, failsAfter := none } rfl]
    simp [List.append_assoc]

/-- A writer whose n-th upcoming call faults stops `writeAll` there:
the error surfaces at once, the first n pieces stay written. -/
theorem writeAll_fail (ps : List (List Char)) (w : Writer) (n : Nat)
    (h : w.failsAfter = some n) (hn : n < ps.length) :
    writeAll w ps =
      ({ written := w.written ++ (ps.take n).flatten, failsAfter := some 0 },
        some .writeError) := by
  induction ps generalizing w n with
  | nil => simp at hn
  | cons s ss ih =>
    cases n with
    | zero =>
      cases w with
      | mk written fa => simp_all [writeAll, write1]
    | succ k =>
      have hk : k < ss.length := Nat.lt_of_succ_lt_succ hn
      simp only [writeAll, write1, h]
      rw [ih { written := w.written ++ s, failsAfter := some k } k rfl hk]
      simp [List.append_assoc]

/-- C5: the callable returned by `formatter fmt`, applied to a writer
and a record, is exactly `fmt.format` on that writer and record — the
closure adds no logic of its own. -/
theorem colog_formatter_delegates (fmt : CologStyle) (buf : Writer)
    (rec : Record) :
    formatter fmt buf rec = fmt.formatWrite buf rec := rfl

/-- C7: `format` never fails for reasons of its own — on a fault-free
writer it succeeds for every policy and record, appending exactly the
formatted bytes — and when the writer's n-th write call faults, the
WriteError is returned immediately with the first n pieces still
written: no retry, no rollback. -/
theorem colog_format_error_propagation (fmt : CologStyle) (rec : Record)
    (w : Writer) :
    (w.failsAfter = none →
      fmt.formatWrite w rec =
        ({ written := w.written ++ fmt.format rec, failsAfter := none },
          none)) ∧
    (∀ n, w.failsAfter = some n → n < (pieces fmt rec).length →
      fmt.formatWrite w rec =
        ({ written := w.written ++ ((pieces fmt rec).take n).flatten,
           failsAfter := some 0 }, some .writeError)) := by
  constructor
  · intro h
    exact writeAll_ok (pieces fmt rec) w h
  · intro n h hn
    exact writeAll_fail (pieces fmt rec) w n h hn

/-- Witness for C7: a fault-free run and a run faulting on call 1. -/
theorem colog_format_error_propagation_witness :
    (CologStyle.formatWrite DefaultCologStyle
        { written := [], failsAfter := none }
        { level := Level.Error, target := [], message := ['x'] } =
      ({ written :=
           [] ++ CologStyle.format DefaultCologStyle
             { level := Level.Error, target := [], message := ['x'] },
         failsAfter := none }, none)) ∧
    (CologStyle.formatWrite DefaultCologStyle
        { written := [], failsAfter := some 1 }
        { level := Level.Error, target := [], message := ['x'] } =
      ({ written :=
           [] ++ ((pieces DefaultCologStyle
             { level := Level.Error, target := [], message := ['x'] }).take 1).flatten,
         failsAfter := some 0 }, some .writeError)) :=
  ⟨(colog_format_error_propagation DefaultCologStyle
      { level := Level.Error, target := [], message := ['x'] }
      { written := [], failsAfter := none }).1 rfl,
   (colog_format_error_propagation DefaultCologStyle
      { level := Level.Error, target := [], message := ['x'] }
      { written := [], failsAfter := some 1 }).2 1 rfl (by decide)⟩

/-- C9: formatting is deterministic — the same policy and record on two
identically-initialized fault-free writers yield byte-identical output
and the same result. -/
theorem colog_format_deterministic (fmt : CologStyle) (rec : Record)
    (w1 w2 : Writer) (h1 : w1.failsAfter = none) (h2 : w2.failsAfter = none)
    (hsame : w1.written = w2.written) :
    (fmt.formatWrite w1 rec).1.written = (fmt.formatWrite w2 rec).1.written ∧
    (fmt.formatWrite w1 rec).2 = (fmt.formatWrite w2 rec).2 := by
  have e1 := writeAll_ok (pieces fmt rec) w1 h1
  have e2 := writeAll_ok (pieces fmt rec) w2 h2
  rw [CologStyle.formatWrite, CologStyle.formatWrite, e1, e2, hsame]
  exact ⟨rfl, rfl⟩

/-- Witness for C9 on two fresh fault-free writers. -/
theorem colog_format_deterministic_witness :
    ((CologStyle.formatWrite DefaultCologStyle
        { written := [], failsAfter := none }
        { level := Level.Trace, target := [], message := ['a', '\n', 'b'] }).1.written =
      (CologStyle.formatWrite DefaultCologStyle
        { written := [], failsAfter := none }
        { level := Level.Trace, target := [], message := ['a', '\n', 'b'] }).1.written) ∧
    ((CologStyle.formatWrite DefaultCologStyle
        { written := [], failsAfter := none }
        { level := Level.Trace, target := [], message := ['a', '\n', 'b'] }).2 =
      (CologStyle.formatWrite DefaultCologStyle
        { written := [], failsAfter := none }
        { level := Level.Trace, target := [], message := ['a', '\n', 'b'] }).2) :=
  colog_format_deterministic DefaultCologStyle
    { level := Level.Trace, target := [], message := ['a', '\n', 'b'] }
    { written := [], failsAfter := none } { written := [], failsAfter := none }
    rfl rfl rfl
/-- C6: `default_builder` — and hence the builder `init` constructs and
initializes — installs the colog formatter with the default style, sets
the default minimum severity filter to Info, and passes a present
`RUST_LOG` value raw and unmodified to the facade's filter parser; when
`RUST_LOG` is absent nothing is parsed and the Info default stands. -/
theorem colog_default_builder_config (rustLog : Option (List Char)) :
    (default_builder rustLog).fmtFn = some (formatter DefaultCologStyle) ∧
    (default_builder rustLog).filters = [(none, LevelFilter.InfoF)] ∧
    (∀ s, rustLog = some s → (default_builder rustLog).parsedFilters = [s]) ∧
    (rustLog = none → (default_builder rustLog).parsedFilters = []) ∧
    init rustLog = default_builder rustLog := by
  refine ⟨?_, ?_, ?_, ?_, rfl⟩ <;>
    cases rustLog <;>
      simp [default_builder, basic_builder, Builder.new, Builder.formatWith,
        Builder.filter, Builder.parseFilters]

/-- Witness for C6 with `RUST_LOG=debug` present and absent. -/
theorem colog_default_builder_config_witness :
    (default_builder (some ['d', 'e', 'b', 'u', 'g'])).parsedFilters =
      [['d', 'e', 'b', 'u', 'g']] ∧
    (default_builder none).parsedFilters = [] ∧
    (default_builder none).filters = [(none, LevelFilter.InfoF)] :=
  ⟨(colog_default_builder_config
      (some ['d', 'e', 'b', 'u', 'g'])).2.2.1 ['d', 'e', 'b', 'u', 'g'] rfl,
   (colog_default_builder_config none).2.2.2.1 rfl,
   (colog_default_builder_config none).2.1⟩

/-- C8: `basic_builder` only installs the colog default formatting: it
sets no severity filter, hands nothing to the filter parser, and its
result is independent of the `RUST_LOG` environment. -/
theorem colog_basic_builder_minimal (e1 e2 : Option (List Char)) :
    basic_builder e1 = basic_builder e2 ∧
    (basic_builder e1).fmtFn = some (formatter DefaultCologStyle) ∧
    (basic_builder e1).filters = [] ∧
    (basic_builder e1).parsedFilters = [] :=
  ⟨rfl, rfl, rfl, rfl⟩

/-- C10: the deprecated `builder()` is behaviorally identical to
`default_builder()` for every environment state. -/
theorem colog_builder_deprecated_alias (rustLog : Option (List Char)) :
    builder rustLog = default_builder rustLog := rfl
end Colog
